import Mathlib

/-!
Verification development for the maml-rs MAML parser (src/lib.rs, src/tokenizer.rs,
src/parser.rs, src/utils.rs).  The tokenizer (a logos-generated lexer) is embedded as a
maximal-munch scanner over `List Char`: each lexer rule becomes a match-length function,
the scanner picks the longest match breaking ties by rule priority exactly as logos does,
and each rule's callback is embedded as a separate function.  The chumsky combinator
parser is embedded as a fuel-indexed recursive-descent parser over the token list, with
the `nested_delimiters` recovery strategy embedded as a balanced-delimiter skip.  Error
spans are token-index spans, matching chumsky's spans over a `&[Token]` input.
Rust `f64` literal values are modelled by the exact decimal data of the lexeme
(sign, mantissa digits, decimal exponent) with overflow to a signed infinity at the
IEEE-754 binary64 overflow threshold; rounding of finite values to the nearest
representable double is not modelled, as no property here compares two floats that were
written differently.  Diagnostic rendering (the ariadne report layer) is modelled as a
placeholder formatting function, since it is a presentation layer whose text content no
property inspects.
-/

set_option maxRecDepth 100000

namespace Maml

/-- Character constants used by the lexer rules, written via their code points. -/
def quoteCh : Char := Char.ofNat 34

def backslashCh : Char := Char.ofNat 92

def lbraceCh : Char := Char.ofNat 123

def rbraceCh : Char := Char.ofNat 125

def nlCh : Char := Char.ofNat 10

def crCh : Char := Char.ofNat 13

def tabCh : Char := Char.ofNat 9

/-- Model of a Rust `f64` produced by `str::parse::<f64>` on a float lexeme: either a
finite value given by the exact decimal data of the lexeme, or an infinity when the
decimal value reaches the binary64 overflow threshold `2^1024 - 2^970`. -/
inductive F64 where
  | fin (neg : Bool) (mant : Nat) (exp : Int)
  | inf (neg : Bool)
deriving DecidableEq, Repr

/-- Token type from src/tokenizer.rs (enum Token). -/
inductive Token where
  | Null
  | True
  | False
  | Float (f : F64)
  | Int (n : Int)
  | String (s : String)
  | RawString (s : String)
  | Key (s : String)
  | LBracket
  | RBracket
  | LBrace
  | RBrace
  | Colon
  | Comma
  | Newline
deriving DecidableEq, Repr

/-- The MAML AST from src/lib.rs (enum MamlValue).  `Object` is a Rust
`HashMap<String, MamlValue>`, modelled as an association list built by
insert-or-replace, so duplicate keys collapse exactly as HashMap insertion does. -/
inductive MamlValue where
  | Null
  | Bool (b : Bool)
  | Int (n : Int)
  | Float (f : F64)
  | String (s : String)
  | Array (xs : List MamlValue)
  | Object (entries : List (String × MamlValue))
deriving Repr

/-- Byte/ token spans used in diagnostics. -/
abbrev Span := Nat × Nat

/-- Decimal digit test, mirroring the regex class `[0-9]`. -/
def isDigitCh (c : Char) : Bool := 48 ≤ c.toNat && c.toNat ≤ 57

/-- Nonzero decimal digit test, mirroring `[1-9]`. -/
def isDigit19 (c : Char) : Bool := 49 ≤ c.toNat && c.toNat ≤ 57

/-- Identifier start class of the Key rule, mirroring `[a-zA-Z_-]` (95 is `_`,
45 is `-`). -/
def isIdentStart (c : Char) : Bool :=
  (65 ≤ c.toNat && c.toNat ≤ 90) || (97 ≤ c.toNat && c.toNat ≤ 122) ||
    c.toNat = 95 || c.toNat = 45

/-- Identifier continue class of the Key rule, mirroring `[a-zA-Z0-9_-]`. -/
def isIdentCh (c : Char) : Bool := isIdentStart c || isDigitCh c

/-- Length of the longest prefix of `l` whose characters all satisfy `p`. -/
def runLen (p : Char → Bool) : List Char → Nat
  | [] => 0
  | c :: r => if p c then runLen p r + 1 else 0

/-- Numeric value of a digit string (most significant digit first). -/
def digitsToNat (l : List Char) : Nat :=
  l.foldl (fun a c => a * 10 + (c.toNat - 48)) 0

/-- Longest match of the regex `0|[1-9][0-9]*` at the head of the input. -/
def uintLen : List Char → Option Nat
  | [] => none
  | c :: r =>
    if c = '0' then some 1
    else if isDigit19 c then some (1 + runLen isDigitCh r)
    else none

/-- Longest match of `-?(0|[1-9][0-9]*)`, the shared integer part of the Int and
Float rules. -/
def intPartLen (s : List Char) : Option Nat :=
  match s with
  | [] => none
  | c :: r => if c = '-' then (uintLen r).map (· + 1) else uintLen s

/-- Longest match of `[eE][+-]?[0-9]+` at the head of the input (the exponent part of
the Float rules). -/
def expLen (s : List Char) : Option Nat :=
  match s with
  | [] => none
  | c :: r =>
    if c = 'e' ∨ c = 'E' then
      match r with
      | [] => none
      | d :: r2 =>
        if d = '+' ∨ d = '-' then
          match r2 with
          | [] => none
          | x :: _ => if isDigitCh x then some (2 + runLen isDigitCh r2) else none
        else if isDigitCh d then some (1 + runLen isDigitCh r)
        else none
    else none

/-- Longest match of `\.[0-9]+([eE][+-]?[0-9]+)?` (the fraction-then-optional-exponent
tail of the first Float regex). -/
def fracExpLen (s : List Char) : Option Nat :=
  match s with
  | [] => none
  | c :: r =>
    if c = '.' then
      match r with
      | [] => none
      | d :: _ =>
        if isDigitCh d then
          let dr := runLen isDigitCh r
          some (1 + dr + ((expLen (r.drop dr)).getD 0))
        else none
    else none

/-- Longest match of the two Float regexes of src/tokenizer.rs (priority 3): the
fraction form and the bare-exponent form, both after `-?(0|[1-9][0-9]*)`. -/
def floatMatchLen (s : List Char) : Option Nat :=
  match intPartLen s with
  | none => none
  | some n =>
    match fracExpLen (s.drop n) with
    | some m => some (n + m)
    | none =>
      match expLen (s.drop n) with
      | some m => some (n + m)
      | none => none

/-- Longest match of the Int regex `-?(0|[1-9][0-9]*)` (priority 2). -/
def intMatchLen (s : List Char) : Option Nat := intPartLen s

/-- Longest match of the Key identifier regex `[a-zA-Z_-][a-zA-Z0-9_-]*`
(priority 1). -/
def keyIdentLen (s : List Char) : Option Nat :=
  match s with
  | [] => none
  | c :: r => if isIdentStart c then some (1 + runLen isIdentCh r) else none

/-- Longest match of the Key digit-sequence regex `[0-9]+` (priority 1). -/
def keyDigitsLen (s : List Char) : Option Nat :=
  match s with
  | [] => none
  | c :: _ => if isDigitCh c then some (runLen isDigitCh s) else none

/-- Exact keyword match for the `null` / `true` / `false` token rules. -/
def kwMatch : List Char → List Char → Bool
  | [], _ => Bool.true
  | _ :: _, [] => Bool.false
  | a :: w, c :: r => a == c && kwMatch w r

/-- Match length of an exact keyword rule. -/
def kwLen (w s : List Char) : Option Nat :=
  if kwMatch w s then some w.length else none

/-- Match length of a single-character token rule such as `[` or `:`. -/
def charTokLen (ch : Char) (s : List Char) : Option Nat :=
  match s with
  | [] => none
  | c :: _ => if c = ch then some 1 else none

/-- Longest match of the comment rule `#[^\n]*` (skipped by the lexer). -/
def commentLen (s : List Char) : Option Nat :=
  match s with
  | [] => none
  | c :: r => if c = '#' then some (1 + runLen (fun x => !(x = nlCh)) r) else none

/-- Longest match of the whitespace skip rule `[ \t]+`. -/
def wsLen (s : List Char) : Option Nat :=
  match s with
  | [] => none
  | c :: r => if c = ' ' ∨ c = tabCh then some (1 + runLen (fun x => x = ' ' || x = tabCh) r) else none

/-- Hex digit value, mirroring `char::is_ascii_hexdigit` plus the radix-16 digit value
used after it. -/
def hexVal (c : Char) : Option Nat :=
  if 48 ≤ c.toNat ∧ c.toNat ≤ 57 then some (c.toNat - 48)
  else if 97 ≤ c.toNat ∧ c.toNat ≤ 102 then some (c.toNat - 87)
  else if 65 ≤ c.toNat ∧ c.toNat ≤ 70 then some (c.toNat - 55)
  else none

/-- Body scanner of the quoted-string regex
`"(?:[^"\\]|\\["\\/bfnrt]|\\u\{[0-9a-fA-F]{1,6}\})*"`, applied after the opening quote;
returns the number of characters consumed including the closing quote.  The content
alternation is deterministic on its first character, so the regex's maximal match closes
at the first unescaped quote. -/
def strBody : Nat → List Char → Option Nat
  | 0, _ => none
  | _ + 1, [] => none
  | fuel + 1, c :: r =>
    if c = quoteCh then some 1
    else if c = backslashCh then
      match r with
      | [] => none
      | d :: r2 =>
        if d = quoteCh ∨ d = backslashCh ∨ d = '/' ∨ d = 'b' ∨ d = 'f' ∨ d = 'n' ∨ d = 'r' ∨ d = 't' then
          (strBody fuel r2).map (· + 2)
        else if d = 'u' then
          match r2 with
          | [] => none
          | b :: r3 =>
            if b = lbraceCh then
              let h := runLen (fun x => (hexVal x).isSome) r3
              if 1 ≤ h ∧ h ≤ 6 then
                match r3.drop h with
                | [] => none
                | e :: r4 => if e = rbraceCh then (strBody fuel r4).map (· + (h + 4)) else none
              else none
            else none
        else none
    else (strBody fuel r).map (· + 1)

/-- Longest match of the quoted-string rule. -/
def stringMatchLen (s : List Char) : Option Nat :=
  match s with
  | [] => none
  | c :: r => if c = quoteCh then (strBody (r.length + 1) r).map (· + 1) else none

/-- Whether the character list contains three consecutive double quotes, mirroring
`content.contains(r#"""""#)` in the RawString callback. -/
def hasTripleQuote : List Char → Bool
  | a :: b :: c :: r =>
    if a = quoteCh ∧ b = quoteCh ∧ c = quoteCh then Bool.true else hasTripleQuote (b :: c :: r)
  | _ => Bool.false

/-- Whether the first three characters are double quotes. -/
def quotePrefix3 : List Char → Bool
  | a :: b :: c :: _ => a = quoteCh ∧ b = quoteCh ∧ c = quoteCh
  | _ => Bool.false

/-- Whether a character list is derivable by the raw-string content regex
`([^"]|"[^"]|""[^"])*`: every piece ends in a non-quote, so the content has no run of
three quotes and does not end in a quote. -/
def rawContentOk (c : List Char) : Bool :=
  !hasTripleQuote c && !(c.getLast? == some quoteCh)

/-- All total lengths `m` at which the RawString regex `"""([^"]|"[^"]|""[^"])*"""`
matches a prefix of `s`, in increasing order. -/
def rawCandidates (s : List Char) : List Nat :=
  (List.range (s.length + 1)).filter fun m =>
    6 ≤ m && quotePrefix3 s && quotePrefix3 (s.drop (m - 3)) &&
      rawContentOk ((s.drop 3).take (m - 6))

/-- Longest match of the RawString rule (maximal munch over `rawCandidates`). -/
def rawMatchLen (s : List Char) : Option Nat :=
  (rawCandidates s).getLast?

/-- The `strip_prefix('\n')` / `strip_prefix("\r\n")` chain of the RawString callback. -/
def stripLeadTerm (c : List Char) : List Char :=
  match c with
  | a :: r =>
    if a = nlCh then r
    else
      match c with
      | a2 :: b2 :: r2 => if a2 = crCh ∧ b2 = nlCh then r2 else c
      | _ => c
  | [] => []

/-- The RawString callback of src/tokenizer.rs: reject content containing a triple
quote, then strip one leading line terminator. -/
def rawStringCallback (content : List Char) : Option String :=
  if hasTripleQuote content then none
  else some (String.mk (stripLeadTerm content))

/-- The `\u{...}` digit loop of `parse_string` in src/utils.rs: consume characters,
accumulating up to six hex digits, until a closing brace; returns the code value, the
number of digits seen, and the rest of the input. -/
def uEscape : List Char → Nat → Nat → Option (Nat × Nat × List Char)
  | [], _, _ => none
  | c :: r, acc, k =>
    if c = rbraceCh then some (acc, k, r)
    else
      match hexVal c with
      | some v => if k < 6 then uEscape r (acc * 16 + v) (k + 1) else none
      | none => none

/-- Unicode scalar validity, mirroring `char::from_u32`. -/
def validScalar (n : Nat) : Bool :=
  n < 55296 || (57343 < n && n < 1114112)

/-- Escape-decoding loop of `parse_string` in src/utils.rs. -/
def parseStringGo : Nat → List Char → Option (List Char)
  | 0, _ => none
  | _ + 1, [] => some []
  | fuel + 1, c :: r =>
    if c = backslashCh then
      match r with
      | [] => none
      | d :: r2 =>
        if d = backslashCh then (parseStringGo fuel r2).map (backslashCh :: ·)
        else if d = '/' then (parseStringGo fuel r2).map ('/' :: ·)
        else if d = quoteCh then (parseStringGo fuel r2).map (quoteCh :: ·)
        else if d = 'b' then (parseStringGo fuel r2).map (Char.ofNat 8 :: ·)
        else if d = 'f' then (parseStringGo fuel r2).map (Char.ofNat 12 :: ·)
        else if d = 'n' then (parseStringGo fuel r2).map (nlCh :: ·)
        else if d = 'r' then (parseStringGo fuel r2).map (crCh :: ·)
        else if d = 't' then (parseStringGo fuel r2).map (tabCh :: ·)
        else if d = 'u' then
          match r2 with
          | [] => none
          | b :: r3 =>
            if b = lbraceCh then
              match uEscape r3 0 0 with
              | none => none
              | some (code, k, rest) =>
                if k = 0 then none
                else if validScalar code then (parseStringGo fuel rest).map (Char.ofNat code :: ·)
                else none
            else none
        else none
    else (parseStringGo fuel r).map (c :: ·)

/-- `parse_string` from src/utils.rs: decode escape sequences in the inner slice of a
quoted string, failing on malformed escapes or invalid code points. -/
def parse_string (s : List Char) : Option String :=
  (parseStringGo (s.length + 1) s).map String.mk

/-- `i64::MIN`. -/
def i64Min : Int := -(2 ^ 63)

/-- `i64::MAX`. -/
def i64Max : Int := 2 ^ 63 - 1

/-- Signed value of an Int-rule lexeme. -/
def intLexValue (s : List Char) : Int :=
  match s with
  | [] => 0
  | c :: r => if c = '-' then -(digitsToNat r : Int) else (digitsToNat s : Int)

/-- The Int callback `lex.slice().parse::<i64>().ok()`: the lexeme is canonical decimal,
so parsing fails exactly when the value is outside the i64 range. -/
def decodeI64 (s : List Char) : Option Int :=
  let v := intLexValue s
  if i64Min ≤ v ∧ v ≤ i64Max then some v else none

/-- The binary64 overflow threshold `2^1024 - 2^970`: round-to-nearest-even sends any
decimal value of at least this magnitude to infinity. -/
def f64Thresh : Nat := 2 ^ 1024 - 2 ^ 970

/-- Whether `mant * 10^e` reaches the binary64 overflow threshold. -/
def overflowF64 (mant : Nat) (e : Int) : Bool :=
  match e with
  | Int.ofNat k => decide (f64Thresh ≤ mant * 10 ^ k)
  | Int.negSucc k => decide (f64Thresh * 10 ^ (k + 1) ≤ mant)

/-- The Float callback `lex.slice().parse::<f64>().ok()` on a Float-rule lexeme,
modelled by the exact decimal data of the lexeme with overflow to infinity (Rust's f64
parsing never fails on these lexemes; out-of-range values become infinities). -/
def decodeF64 (s : List Char) : F64 :=
  let (neg, s1) : Bool × List Char :=
    match s with
    | c :: r => if c = '-' then (Bool.true, r) else (Bool.false, s)
    | [] => (Bool.false, s)
  let ip := s1.takeWhile isDigitCh
  let r1 := s1.dropWhile isDigitCh
  let (fp, r2) : List Char × List Char :=
    match r1 with
    | c :: t => if c = '.' then (t.takeWhile isDigitCh, t.dropWhile isDigitCh) else ([], r1)
    | [] => ([], r1)
  let ev : Int :=
    match r2 with
    | _ :: t =>
      match t with
      | d :: t2 =>
        if d = '+' then (digitsToNat t2 : Int)
        else if d = '-' then -(digitsToNat t2 : Int)
        else (digitsToNat t : Int)
      | [] => 0
    | [] => 0
  let mant := digitsToNat (ip ++ fp)
  let e : Int := ev - (fp.length : Int)
  if overflowF64 mant e then F64.inf neg else F64.fin neg mant e

/-- One lexer rule of src/tokenizer.rs. -/
inductive Rule where
  | KwNull
  | KwTrue
  | KwFalse
  | FloatR
  | IntR
  | StringR
  | RawR
  | KeyIdent
  | KeyDigits
  | LBr
  | RBr
  | LBc
  | RBc
  | ColonR
  | CommaR
  | NewlineR
  | CommentR
  | WsR
deriving DecidableEq, Repr

/-- The keyword `null` as characters. -/
def nullKw : List Char := ['n', 'u', 'l', 'l']

/-- The keyword `true` as characters. -/
def trueKw : List Char := ['t', 'r', 'u', 'e']

/-- The keyword `false` as characters. -/
def falseKw : List Char := ['f', 'a', 'l', 's', 'e']

/-- Longest match of each rule at the head of the input. -/
def ruleLen (ru : Rule) (s : List Char) : Option Nat :=
  match ru with
  | Rule.KwNull => kwLen nullKw s
  | Rule.KwTrue => kwLen trueKw s
  | Rule.KwFalse => kwLen falseKw s
  | Rule.FloatR => floatMatchLen s
  | Rule.IntR => intMatchLen s
  | Rule.StringR => stringMatchLen s
  | Rule.RawR => rawMatchLen s
  | Rule.KeyIdent => keyIdentLen s
  | Rule.KeyDigits => keyDigitsLen s
  | Rule.LBr => charTokLen '[' s
  | Rule.RBr => charTokLen ']' s
  | Rule.LBc => charTokLen lbraceCh s
  | Rule.RBc => charTokLen rbraceCh s
  | Rule.ColonR => charTokLen ':' s
  | Rule.CommaR => charTokLen ',' s
  | Rule.NewlineR => charTokLen nlCh s
  | Rule.CommentR => commentLen s
  | Rule.WsR => wsLen s

/-- Logos rule priorities: Float/Int/Key carry the explicit priorities 3/2/1 of
src/tokenizer.rs; keyword tokens get the logos default of twice their length, which is
what lets `null` beat the Key rule on an equal-length match.  The remaining rules never
tie with another rule of the same match length, so their values are immaterial. -/
def rulePrio (ru : Rule) : Nat :=
  match ru with
  | Rule.KwNull => 8
  | Rule.KwTrue => 8
  | Rule.KwFalse => 10
  | Rule.FloatR => 3
  | Rule.IntR => 2
  | Rule.StringR => 4
  | Rule.RawR => 4
  | Rule.KeyIdent => 1
  | Rule.KeyDigits => 1
  | Rule.CommentR => 3
  | _ => 2

/-- Rules in their source declaration order. -/
def ruleOrder : List Rule :=
  [Rule.KwNull, Rule.KwTrue, Rule.KwFalse, Rule.FloatR, Rule.IntR, Rule.StringR,
   Rule.RawR, Rule.KeyIdent, Rule.KeyDigits, Rule.LBr, Rule.RBr, Rule.LBc, Rule.RBc,
   Rule.ColonR, Rule.CommaR, Rule.NewlineR, Rule.CommentR, Rule.WsR]

/-- Logos token selection: the longest match wins, with ties broken by higher
priority. -/
def pickRule (s : List Char) : Option (Rule × Nat) :=
  ruleOrder.foldl
    (fun acc ru =>
      match ruleLen ru s with
      | none => acc
      | some n =>
        match acc with
        | none => some (ru, n)
        | some (r0, n0) =>
          if n0 < n ∨ (n0 = n ∧ rulePrio r0 < rulePrio ru) then some (ru, n)
          else some (r0, n0))
    none

/-- The callback of each rule, applied to the matched lexeme: `none` is a callback
failure (a lexer error), `some none` a skipped lexeme, `some (some t)` a token. -/
def applyRule (ru : Rule) (lx : List Char) : Option (Option Token) :=
  match ru with
  | Rule.KwNull => some (some Token.Null)
  | Rule.KwTrue => some (some Token.True)
  | Rule.KwFalse => some (some Token.False)
  | Rule.FloatR => some (some (Token.Float (decodeF64 lx)))
  | Rule.IntR => (decodeI64 lx).map (fun v => some (Token.Int v))
  | Rule.StringR => (parse_string ((lx.drop 1).dropLast)).map (fun s => some (Token.String s))
  | Rule.RawR =>
    (rawStringCallback ((((lx.drop 3).dropLast).dropLast).dropLast)).map
      (fun s => some (Token.RawString s))
  | Rule.KeyIdent => some (some (Token.Key (String.mk lx)))
  | Rule.KeyDigits => some (some (Token.Key (String.mk lx)))
  | Rule.LBr => some (some Token.LBracket)
  | Rule.RBr => some (some Token.RBracket)
  | Rule.LBc => some (some Token.LBrace)
  | Rule.RBc => some (some Token.RBrace)
  | Rule.ColonR => some (some Token.Colon)
  | Rule.CommaR => some (some Token.Comma)
  | Rule.NewlineR => some (some Token.Newline)
  | Rule.CommentR => some none
  | Rule.WsR => some none

/-- Tokenizer loop: scan one lexeme at a time, producing the token list or the span of
the first lexer error (an unmatched character or a failed callback), as
`Token::lexer(input).spanned()` does. -/
def tokenizeAux : Nat → List Char → Nat → Except Span (List Token)
  | 0, _, off => Except.error (off, off)
  | _ + 1, [], _ => Except.ok []
  | fuel + 1, c :: r, off =>
    match pickRule (c :: r) with
    | none => Except.error (off, off + 1)
    | some (ru, n) =>
      match applyRule ru ((c :: r).take n) with
      | none => Except.error (off, off + n)
      | some none => tokenizeAux fuel ((c :: r).drop n) (off + n)
      | some (some t) =>
        match tokenizeAux fuel ((c :: r).drop n) (off + n) with
        | Except.ok ts => Except.ok (t :: ts)
        | Except.error e => Except.error e

/-- The full tokenizer. -/
def tokenize (s : List Char) : Except Span (List Token) :=
  tokenizeAux (s.length + 1) s 0

/-- Result of a chumsky sub-parser over the token list: success carries the parsed
value, the next token position, and the recovered errors emitted inside this branch
(rolled back if the branch is abandoned, as chumsky checkpoints do); failure carries the
error span in token indices. -/
inductive PRes (α : Type) where
  | ok (v : α) (pos : Nat) (errs : List Span)
  | fail (e : Span)

/-- The span chumsky's Rich error gives a failure at `pos`: the found token, or the
end-of-input point. -/
def foundSpan (ts : List Token) (pos : Nat) : Span :=
  if pos < ts.length then (pos, pos + 1) else (ts.length, ts.length)

/-- Length of the longest prefix of a token list whose tokens all satisfy `p`. -/
def tokRunLen (p : Token → Bool) : List Token → Nat
  | [] => 0
  | t :: r => if p t then tokRunLen p r + 1 else 0

/-- Number of consecutive separator tokens (comma or newline, the `separator` parser of
src/parser.rs) from `pos`; the greedy `repeated().at_least(1)` consumes the whole
run. -/
def sepCount (ts : List Token) (pos : Nat) : Nat :=
  tokRunLen (fun t => t == Token.Comma || t == Token.Newline) (ts.drop pos)

/-- Number of consecutive Newline tokens from `pos` (the `padded_by(newline.repeated())`
padding). -/
def newlineRun (ts : List Token) (pos : Nat) : Nat :=
  tokRunLen (fun t => t == Token.Newline) (ts.drop pos)

/-- The balanced-delimiter skip of chumsky's `nested_delimiters` recovery: starting
after the opening delimiter with a stack of expected closers, skip tokens, pushing a
closer for each `[`/`{` and popping on the matching closer, until the stack empties;
fails on a mismatched closer or end of input. -/
def skipBalanced (ts : List Token) : Nat → Nat → List Token → Option Nat
  | 0, _, _ => none
  | fuel + 1, pos, stack =>
    match ts[pos]? with
    | none => none
    | some t =>
      if t = Token.LBracket then skipBalanced ts fuel (pos + 1) (Token.RBracket :: stack)
      else if t = Token.LBrace then skipBalanced ts fuel (pos + 1) (Token.RBrace :: stack)
      else if t = Token.RBracket ∨ t = Token.RBrace then
        match stack with
        | [] => none
        | s :: rest =>
          if t = s then
            match rest with
            | [] => some (pos + 1)
            | _ :: _ => skipBalanced ts fuel (pos + 1) rest
          else none
      else skipBalanced ts fuel (pos + 1) stack

/-- Closing step of the array parser: trailing newline padding then the `]`
delimiter. -/
def arrClose (ts : List Token) (vs : List MamlValue) (p : Nat) (errs : List Span) :
    PRes MamlValue :=
  let p2 := p + newlineRun ts p
  match ts[p2]? with
  | some t => if t = Token.RBracket then PRes.ok (MamlValue.Array vs) (p2 + 1) errs
              else PRes.fail (p2, p2 + 1)
  | none => PRes.fail (ts.length, ts.length)

/-- HashMap insertion: replace the value at an existing key, else append. -/
def insertKV (l : List (String × MamlValue)) (k : String) (v : MamlValue) :
    List (String × MamlValue) :=
  match l with
  | [] => [(k, v)]
  | (k2, v2) :: rest => if k2 = k then (k, v) :: rest else (k2, v2) :: insertKV rest k v

/-- `collect::<HashMap<_, _>>()` over the member list: later members replace earlier
ones with the same key. -/
def collectObject (ms : List (String × MamlValue)) : List (String × MamlValue) :=
  ms.foldl (fun acc kv => insertKV acc kv.1 kv.2) []

/-- Closing step of the object parser: trailing newline padding, the `}` delimiter, and
the HashMap collect. -/
def objClose (ts : List Token) (ms : List (String × MamlValue)) (p : Nat)
    (errs : List Span) : PRes MamlValue :=
  let p2 := p + newlineRun ts p
  match ts[p2]? with
  | some t => if t = Token.RBrace then PRes.ok (MamlValue.Object (collectObject ms)) (p2 + 1) errs
              else PRes.fail (p2, p2 + 1)
  | none => PRes.fail (ts.length, ts.length)

/-- Element loop of `separated_by(separator.repeated().at_least(1)).allow_trailing()`:
after an element, consume a separator run and try another element; if none follows, the
separator run stays consumed (the trailing separator) and the attempt's errors are
rolled back.  `item` is the element parser, applied at a token position. -/
def pSepLoop {α : Type} (item : Nat → PRes α) (ts : List Token) :
    Nat → Nat → List α → List Span → (List α × Nat × List Span)
  | 0, pos, acc, errs => (acc, pos, errs)
  | iter + 1, pos, acc, errs =>
    let c := sepCount ts pos
    if c = 0 then (acc, pos, errs)
    else
      match item (pos + c) with
      | PRes.fail _ => (acc, pos + c, errs)
      | PRes.ok v p e => pSepLoop item ts iter p (acc ++ [v]) (errs ++ e)

/-- The full separated list (zero or more items): a failing first item consumes
nothing. -/
def pSepList {α : Type} (item : Nat → PRes α) (ts : List Token) (pos : Nat) :
    List α × Nat × List Span :=
  match item pos with
  | PRes.fail _ => ([], pos, [])
  | PRes.ok v p e => pSepLoop item ts (ts.length + 1) p [v] e

/-- The `member` parser `key.then_ignore(just(Colon)).then(value)`, with `key` the
choice of a String token or a Key token, and `item` the value parser. -/
def pMember (item : Nat → PRes MamlValue) (ts : List Token) (pos : Nat) :
    PRes (String × MamlValue) :=
  match ts[pos]? with
  | some (Token.String s) | some (Token.Key s) =>
    match ts[pos + 1]? with
    | some t2 =>
      if t2 = Token.Colon then
        match item (pos + 2) with
        | PRes.ok v p e => PRes.ok (s, v) p e
        | PRes.fail e => PRes.fail e
      else PRes.fail (pos + 1, pos + 2)
    | none => PRes.fail (ts.length, ts.length)
  | _ => PRes.fail (foundSpan ts pos)

/-- Array body (assumes `[` at `pos`): leading newline padding, elements separated by
one-or-more separators with a trailing separator allowed, trailing newline padding,
closing `]`. -/
def pArrayCore (item : Nat → PRes MamlValue) (ts : List Token) (pos : Nat) :
    PRes MamlValue :=
  let p1 := pos + 1 + newlineRun ts (pos + 1)
  match pSepList item ts p1 with
  | (vs, p2, errs) => arrClose ts vs p2 errs

/-- Object body (assumes `{` at `pos`): like the array body but over members. -/
def pObjectCore (item : Nat → PRes MamlValue) (ts : List Token) (pos : Nat) :
    PRes MamlValue :=
  let p1 := pos + 1 + newlineRun ts (pos + 1)
  match pSepList (pMember item ts) ts p1 with
  | (ms, p2, errs) => objClose ts ms p2 errs

/-- The recursive `value` parser of src/parser.rs: the top-level `choice` over the
literal tokens, numbers, strings, arrays and objects.  The alternatives are disjoint on
their first token, so the choice is a dispatch; the array and object branches carry
their `recover_with(via_parser(nested_delimiters(...)))` recovery, which on failure of
the delimited body skips the balanced region, substitutes an empty collection, and
emits the original error.  The fuel bounds the value-nesting depth and exceeds any
reachable depth at the chosen `parseFuel`. -/
def pValue : Nat → List Token → Nat → PRes MamlValue
  | 0, ts, pos => PRes.fail (foundSpan ts pos)
  | fuel + 1, ts, pos =>
    match ts[pos]? with
    | some Token.Null => PRes.ok MamlValue.Null (pos + 1) []
    | some Token.True => PRes.ok (MamlValue.Bool Bool.true) (pos + 1) []
    | some Token.False => PRes.ok (MamlValue.Bool Bool.false) (pos + 1) []
    | some (Token.Float f) => PRes.ok (MamlValue.Float f) (pos + 1) []
    | some (Token.Int n) => PRes.ok (MamlValue.Int n) (pos + 1) []
    | some (Token.RawString s) => PRes.ok (MamlValue.String s) (pos + 1) []
    | some (Token.String s) => PRes.ok (MamlValue.String s) (pos + 1) []
    | some Token.LBracket =>
      match pArrayCore (pValue fuel ts) ts pos with
      | PRes.ok v p e => PRes.ok v p e
      | PRes.fail err =>
        match skipBalanced ts (ts.length + 1) (pos + 1) [Token.RBracket] with
        | some p => PRes.ok (MamlValue.Array []) p [err]
        | none => PRes.fail err
    | some Token.LBrace =>
      match pObjectCore (pValue fuel ts) ts pos with
      | PRes.ok v p e => PRes.ok v p e
      | PRes.fail err =>
        match skipBalanced ts (ts.length + 1) (pos + 1) [Token.RBrace] with
        | some p => PRes.ok (MamlValue.Object (collectObject [])) p [err]
        | none => PRes.fail err
    | _ => PRes.fail (foundSpan ts pos)

/-- Fuel used for a full parse: strictly larger than any call-chain depth the parser can
reach on `ts`, since every level of the chain consumes at least one token. -/
def parseFuel (ts : List Token) : Nat := 4 * (ts.length + 2)

/-- The top-level parse `parser().padded_by(just(Newline).repeated()).parse(&tokens)`
followed by `into_output_errors()`: newline padding around the root value and an
end-of-input check; failure yields no output and one error, success yields the value and
the recovered errors. -/
def parseTop (ts : List Token) : Option MamlValue × List Span :=
  let pos0 := newlineRun ts 0
  match pValue (parseFuel ts) ts pos0 with
  | PRes.fail e => (none, [e])
  | PRes.ok v p errs =>
    let p2 := p + newlineRun ts p
    if p2 = ts.length then (some v, errs) else (none, errs ++ [foundSpan ts p2])

/-- Placeholder for the ariadne report rendering of src/parser.rs: a pure formatting
layer whose output text no property inspects. -/
def renderReports (errs : List Span) : String :=
  (errs.map (fun e => toString e.1 ++ ".." ++ toString e.2)).foldl (· ++ ·) ""

/-- Tokenize-then-parse, exposing the parser's raw output and error list. -/
def runParse (input : String) : Except Span (Option MamlValue × List Span) :=
  (tokenize input.data).map parseTop

/-- The parse errors recorded during a run of either entry point (empty when the lexer
fails before the parser runs). -/
def parseErrors (input : String) : List Span :=
  match tokenize input.data with
  | Except.error _ => []
  | Except.ok ts => (parseTop ts).2

/-- `from_str` from src/parser.rs: tokenize (first lexer error aborts), parse, render
all diagnostics into the `Err` string when any error was recorded, otherwise unwrap the
output value. -/
def from_str (input : String) : Except String MamlValue :=
  match tokenize input.data with
  | Except.error sp => Except.error ("Lexer error at " ++ toString sp.1 ++ ".." ++ toString sp.2)
  | Except.ok ts =>
    match parseTop ts with
    | (val, errs) =>
      if errs.isEmpty then
        match val with
        | some v => Except.ok v
        | none => Except.error ("Unexpected parsing failure")
      else Except.error (renderReports errs)

/-- `parse_with_report` from src/parser.rs: same tokenize-and-parse pipeline, but
diagnostics go to stderr (not modelled) and any error yields `none`. -/
def parse_with_report (_filename : String) (input : String) : Option MamlValue :=
  match tokenize input.data with
  | Except.error _ => none
  | Except.ok ts =>
    match parseTop ts with
    | (val, errs) => if errs.isEmpty then val else none

/-- Whether a `from_str` result is a usable value (`Ok`). -/
def isOkResult : Except String MamlValue → Bool
  | Except.ok _ => Bool.true
  | Except.error _ => Bool.false

/-- Lookup in the association-list model of the object HashMap. -/
def lookupKV (l : List (String × MamlValue)) (k : String) : Option MamlValue :=
  match l with
  | [] => none
  | (k2, v) :: rest => if k2 = k then some v else lookupKV rest k

/-- Whether a whole character list is one lexeme of the Int rule
`-?(0|[1-9][0-9]*)`. -/
def isIntLexeme (s : List Char) : Bool := intPartLen s == some s.length

/-- The input `{ a: 1, a: 2 }`. -/
def dupKeyInput : String := String.mk ([lbraceCh] ++ " a: 1, a: 2 ".data ++ [rbraceCh])

/-- The input `{ 123: 1 }`. -/
def intKeyInput : String := String.mk ([lbraceCh] ++ " 123: 1 ".data ++ [rbraceCh])

/-- The input `{ 0123: 1 }`. -/
def zeroKeyInput : String := String.mk ([lbraceCh] ++ " 0123: 1 ".data ++ [rbraceCh])

/-- A quoted string whose content holds a raw (unescaped) line feed: `"a<LF>b"`. -/
def ctrlNlInput : String := String.mk [quoteCh, 'a', nlCh, 'b', quoteCh]

/-- A quoted string whose content holds a raw (unescaped) tab: `"a<TAB>b"`. -/
def ctrlTabInput : String := String.mk [quoteCh, 'a', tabCh, 'b', quoteCh]

/-- The triple-quoted input `"""<LF>hello<LF>world<LF>"""`. -/
def rawInput : String :=
  String.mk ([quoteCh, quoteCh, quoteCh, nlCh] ++ "hello".data ++ [nlCh] ++
    "world".data ++ [nlCh, quoteCh, quoteCh, quoteCh])

/-- C4 counterexample: the quoted string `"a<LF>b"` with a raw line-feed byte between
the quotes tokenizes successfully as a String token — the lexer's content class
`[^"\\]` accepts unescaped control characters, so no lexer error is reported,
contradicting the claim. -/
theorem control_char_string_accepted :
    tokenize ctrlNlInput.data = Except.ok [Token.String ("a\nb")] := by
  rfl

/-- C4 amended: a quoted string containing an unescaped control character is accepted
by the tokenizer, the character being kept verbatim in the String token and in the
parsed value (shown for a raw line feed and a raw tab); only unterminated strings and
malformed escapes are lexer errors. -/
theorem control_char_string_verbatim :
    from_str ctrlNlInput = Except.ok (MamlValue.String ("a\nb")) ∧
    from_str ctrlTabInput = Except.ok (MamlValue.String ("a\tb")) ∧
    tokenize ctrlTabInput.data = Except.ok [Token.String ("a\tb")] := by
  exact ⟨rfl, rfl, rfl⟩

/-- C5 counterexample: with `d = 123` and `v = 1`, the object `{ 123: 1 }` does not
parse to an object mapping "123" to 1 — the digit run 123 is a canonical Int lexeme, so
the Int rule (priority 2) beats the Key rule (priority 1) on the equal-length match, the
parser finds an Int token in key position, and `from_str` returns `Err`. -/
theorem digit_key_fails : isOkResult (from_str intKeyInput) = Bool.false := by
  rfl

/-- C5 amended: a bare digit sequence works as an object key only when it is not itself
a canonical Int lexeme (for example with a leading zero, `{ 0123: 1 }`, where the Key
rule's longer match wins); a canonical digit sequence such as `123` tokenizes as an Int
token, which is rejected in key position: the object body fails, recovery substitutes an
empty object with one recorded error, and `from_str` returns `Err`. -/
theorem digit_key_amended :
    from_str zeroKeyInput = Except.ok (MamlValue.Object [(("0123" : String), MamlValue.Int 1)]) ∧
    tokenize intKeyInput.data =
      Except.ok [Token.LBrace, Token.Int 123, Token.Colon, Token.Int 1, Token.RBrace] ∧
    runParse intKeyInput = Except.ok (some (MamlValue.Object []), [((1 : Nat), (2 : Nat))]) ∧
    isOkResult (from_str intKeyInput) = Bool.false := by
  exact ⟨rfl, rfl, rfl, rfl⟩

/-- C6 counterexample: the claim's example `[1, , 2]` (inside the document
`[[1, , 2], 3]`) is not malformed at all — member separation is one-or-more
comma/newline tokens, so the double comma is legal: the document parses with zero
recorded errors and no empty-array substitution, and `from_str` returns the full
value. -/
theorem extra_separator_wellformed :
    runParse ("[[1, , 2], 3]") =
      Except.ok
        (some (MamlValue.Array
          [MamlValue.Array [MamlValue.Int 1, MamlValue.Int 2], MamlValue.Int 3]),
         ([] : List Span)) ∧
    from_str ("[[1, , 2], 3]") =
      Except.ok (MamlValue.Array
        [MamlValue.Array [MamlValue.Int 1, MamlValue.Int 2], MamlValue.Int 3]) := by
  exact ⟨rfl, rfl⟩

/-- C6 amended: a run of separators is well-formed (so `[1, , 2]` records no error);
for a genuinely malformed balanced region — `[1 2]`, missing its separator, inside
`[[1 2], 3]` — the parser does not abort the document: recovery substitutes an empty
array for the region, records exactly one error whose token-index span (3, 4) points at
the offending token inside the region (tokens 1 to 4), and the sibling value 3 still
parses correctly in the recovered output; the entry points then return no usable value,
only diagnostics. -/
theorem recovery_amended :
    runParse ("[[1 2], 3]") =
      Except.ok (some (MamlValue.Array [MamlValue.Array [], MamlValue.Int 3]),
        [((3 : Nat), (4 : Nat))]) ∧
    isOkResult (from_str ("[[1 2], 3]")) = Bool.false := by
  exact ⟨rfl, rfl⟩

/-- C8: number classification follows Float-before-Int precedence — `42` parses to the
integer 42, `3.14` parses to a float (decimal data 314 times ten to the minus two), and
`1e10`, an exponent form with no decimal point, parses to a float, never an integer. -/
theorem number_classification :
    from_str ("42") = Except.ok (MamlValue.Int 42) ∧
    from_str ("3.14") = Except.ok (MamlValue.Float (F64.fin Bool.false 314 (-2))) ∧
    from_str ("1e10") = Except.ok (MamlValue.Float (F64.fin Bool.false 1 10)) := by
  exact ⟨rfl, rfl, rfl⟩

/-- C10: a float literal beyond the binary64 range is not an error — `1e999` parses
with zero recorded errors to a float value, positive infinity, unlike out-of-range
integer literals. -/
theorem float_overflow_inf :
    runParse ("1e999") =
      Except.ok (some (MamlValue.Float (F64.inf Bool.false)), ([] : List Span)) ∧
    from_str ("1e999") = Except.ok (MamlValue.Float (F64.inf Bool.false)) := by
  exact ⟨rfl, rfl⟩

/-- Looking a key up right after inserting it yields the inserted value. -/
theorem lookupKV_insertKV (l : List (String × MamlValue)) (k : String) (v : MamlValue) :
    lookupKV (insertKV l k v) k = some v := by
  induction l with
  | nil => simp [insertKV, lookupKV]
  | cons hd tl ih =>
    obtain ⟨k2, v2⟩ := hd
    by_cases h : k2 = k
    · simp [insertKV, lookupKV, h]
    · simp [insertKV, lookupKV, h, ih]

/-- Collecting members after appending a final member is inserting it last. -/
theorem collectObject_append (ms : List (String × MamlValue)) (k : String) (v : MamlValue) :
    collectObject (ms ++ [(k, v)]) = insertKV (collectObject ms) k v := by
  simp [collectObject, List.foldl_append]

/-- C9: duplicate object keys follow last-key-wins with no error — in general, the
HashMap collect of any member list whose final member is `(k, v)` maps `k` to `v`
(the later member replaces any earlier one); concretely, `{ a: 1, a: 2 }` parses with
zero recorded errors to an object whose single entry maps "a" to 2. -/
theorem duplicate_key_last_wins :
    (∀ (ms : List (String × MamlValue)) (k : String) (v : MamlValue),
        lookupKV (collectObject (ms ++ [(k, v)])) k = some v) ∧
    runParse dupKeyInput =
      Except.ok (some (MamlValue.Object [(("a" : String), MamlValue.Int 2)]), ([] : List Span)) ∧
    from_str dupKeyInput = Except.ok (MamlValue.Object [(("a" : String), MamlValue.Int 2)]) := by
  refine ⟨fun ms k v => ?_, rfl, rfl⟩
  rw [collectObject_append]
  exact lookupKV_insertKV (collectObject ms) k v

/-- C7: the RawString callback strips exactly one leading line terminator (a line feed,
or a carriage-return line-feed pair) from the content and keeps the rest verbatim with
no escape processing; in particular the document `"""<LF>hello<LF>world<LF>"""` parses
to the string value `hello<LF>world<LF>`. -/
theorem raw_leading_newline_strip :
    (∀ r : List Char, hasTripleQuote (nlCh :: r) = Bool.false →
        rawStringCallback (nlCh :: r) = some (String.mk r)) ∧
    (∀ r : List Char, hasTripleQuote (crCh :: nlCh :: r) = Bool.false →
        rawStringCallback (crCh :: nlCh :: r) = some (String.mk r)) ∧
    from_str rawInput = Except.ok (MamlValue.String ("hello\nworld\n")) := by
  refine ⟨fun r h => ?_, fun r h => ?_, rfl⟩
  · simp [rawStringCallback, h, stripLeadTerm]
  · simp +decide [rawStringCallback, h, stripLeadTerm]

/-- C7 witness: the stripping lemmas applied at the concrete contents `<LF>x` and
`<CR><LF>y`. -/
theorem raw_leading_newline_strip_inst :
    rawStringCallback (nlCh :: ['x']) = some (String.mk ['x']) ∧
    rawStringCallback (crCh :: nlCh :: ['y']) = some (String.mk ['y']) :=
  ⟨raw_leading_newline_strip.1 ['x'] (by decide),
   raw_leading_newline_strip.2.1 ['y'] (by decide)⟩

/-- C1: whenever a parse run records any parse error, no usable value is returned —
`from_str` is not `Ok` and `parse_with_report` is `none`, even when error recovery
produced a substitute value internally. -/
theorem errors_block_value (fname input : String) (h : parseErrors input ≠ []) :
    isOkResult (from_str input) = Bool.false ∧ parse_with_report fname input = none := by
  unfold parseErrors at h
  unfold from_str parse_with_report
  cases h1 : tokenize input.data with
  | error sp => exact ⟨rfl, rfl⟩
  | ok ts =>
    rw [h1] at h
    dsimp only at h ⊢
    rcases h2 : parseTop ts with ⟨val, errs⟩
    rw [h2] at h
    cases errs with
    | nil => exact absurd rfl h
    | cons e rest => simp [isOkResult, h2]

/-- C1 witness: the document `[[1 2], 3]` records a recovery error, and both entry
points refuse to return a value for it. -/
theorem errors_block_value_inst :
    isOkResult (from_str ("[[1 2], 3]")) = Bool.false ∧
    parse_with_report ("f") ("[[1 2], 3]") = none :=
  errors_block_value ("f") ("[[1 2], 3]") (by decide)

/-- C2: for every source name and input, the two entry points agree on the parsing
outcome — `from_str` returns `Ok v` exactly when `parse_with_report` returns `some v`
with the same value, and `from_str` returns `Err` exactly when `parse_with_report`
returns `none`. -/
theorem entry_points_agree (fname input : String) :
    (∀ v, from_str input = Except.ok v ↔ parse_with_report fname input = some v) ∧
    (isOkResult (from_str input) = Bool.false ↔ parse_with_report fname input = none) := by
  unfold from_str parse_with_report
  cases h1 : tokenize input.data with
  | error sp => simp [isOkResult]
  | ok ts =>
    rcases h2 : parseTop ts with ⟨val, errs⟩
    cases errs with
    | nil =>
      cases val with
      | none => simp [isOkResult, h2]
      | some v => simp [isOkResult, h2]
    | cons e rest => simp [isOkResult, h2]

/-- A full-length run under `runLen` means every character satisfies the predicate. -/
theorem runLen_all {p : Char → Bool} {l : List Char} (h : runLen p l = l.length) :
    ∀ c ∈ l, p c = true := by
  induction l with
  | nil => intro c hc; cases hc
  | cons a t ih =>
    by_cases hp : p a = true
    · intro c hc
      rcases List.mem_cons.mp hc with rfl | hmem
      · exact hp
      · refine ih ?_ c hmem
        simpa [runLen, hp] using h
    · exfalso
      simp [runLen, hp] at h

/-- Conversely, a predicate holding everywhere gives a full-length run. -/
theorem all_runLen {p : Char → Bool} {l : List Char} (h : ∀ c ∈ l, p c = true) :
    runLen p l = l.length := by
  induction l with
  | nil => rfl
  | cons a t ih =>
    have ha := h a (List.mem_cons_self a t)
    simp [runLen, ha, ih (fun c hc => h c (List.mem_cons_of_mem a hc))]

/-- A nonzero digit is a digit. -/
theorem digit19_digit {c : Char} (h : isDigit19 c = true) : isDigitCh c = true := by
  simp [isDigit19] at h
  simp [isDigitCh]
  omega

/-- A digit is an identifier-continue character. -/
theorem digit_identCh {c : Char} (h : isDigitCh c = true) : isIdentCh c = true := by
  simp [isIdentCh, h]

/-- A digit is not an identifier-start character. -/
theorem identStart_of_digit {c : Char} (h : isDigitCh c = true) : isIdentStart c = false := by
  simp [isDigitCh] at h
  simp [isIdentStart]
  omega

/-- A full-length match of `0|[1-9][0-9]*` means the list is all digits. -/
theorem uintLen_all_digits {l : List Char} (h : uintLen l = some l.length) :
    ∀ c ∈ l, isDigitCh c = true := by
  cases l with
  | nil => simp [uintLen] at h
  | cons a t =>
    by_cases h0 : a = '0'
    · simp [uintLen, h0] at h
      have ht : t = [] := by simpa using h
      subst ht
      intro c hc
      rcases List.mem_cons.mp hc with rfl | hmem
      · subst h0; decide
      · cases hmem
    · by_cases h19 : isDigit19 a = true
      · simp [uintLen, h0, h19] at h
        have hr : runLen isDigitCh t = t.length := by omega
        intro c hc
        rcases List.mem_cons.mp hc with rfl | hmem
        · exact digit19_digit h19
        · exact runLen_all hr c hmem
      · simp [uintLen, h0, h19] at h

/-- Shape of a full-length Int-rule lexeme: a head that is a minus sign or a digit,
followed by digits only. -/
theorem intLexeme_cases {s : List Char} (h : intPartLen s = some s.length) :
    ∃ c r, s = c :: r ∧ (c = '-' ∨ isDigitCh c = true) ∧ ∀ x ∈ r, isDigitCh x = true := by
  cases s with
  | nil => simp [intPartLen] at h
  | cons c r =>
    refine ⟨c, r, rfl, ?_⟩
    by_cases hm : c = '-'
    · simp only [intPartLen, if_pos hm, List.length_cons] at h
      cases huv : uintLen r with
      | none => rw [huv] at h; simp at h
      | some k =>
        rw [huv] at h
        simp at h
        refine ⟨Or.inl hm, uintLen_all_digits (by rw [huv, h])⟩
    · simp only [intPartLen, if_neg hm] at h
      have hall := uintLen_all_digits (l := c :: r) (by simpa using h)
      exact ⟨Or.inr (hall c (List.mem_cons_self c r)),
        fun x hx => hall x (List.mem_cons_of_mem c hx)⟩

/-- No character other than a minus sign or a digit equals the head of an Int
lexeme. -/
theorem intStart_ne {c : Char} (hc : c = '-' ∨ isDigitCh c = true) (a : Char)
    (ha : isDigitCh a = false) (hm : ¬ a = '-') : ¬ a = c := by
  intro he
  rcases hc with rfl | hd
  · exact hm he
  · rw [he] at ha
    rw [hd] at ha
    cases ha

/-- A keyword rule fails when its first character differs from the input head. -/
theorem kwLen_cons_ne {a c : Char} {w r : List Char} (h : ¬ a = c) :
    kwLen (a :: w) (c :: r) = none := by
  simp [kwLen, kwMatch, h]

/-- A single-character rule fails on a different head. -/
theorem charTokLen_cons_ne {ch c : Char} {r : List Char} (h : ¬ c = ch) :
    charTokLen ch (c :: r) = none := by
  simp [charTokLen, h]

/-- The quoted-string rule fails when the head is not a quote. -/
theorem stringLen_cons_ne {c : Char} {r : List Char} (h : ¬ c = quoteCh) :
    stringMatchLen (c :: r) = none := by
  simp [stringMatchLen, h]

/-- No triple-quote prefix when the head is not a quote. -/
theorem quotePrefix3_cons_ne {c : Char} {r : List Char} (h : ¬ c = quoteCh) :
    quotePrefix3 (c :: r) = Bool.false := by
  cases r with
  | nil => rfl
  | cons b t =>
    cases t with
    | nil => rfl
    | cons d u => simp [quotePrefix3, h]

/-- The RawString rule fails when the head is not a quote. -/
theorem rawLen_cons_ne {c : Char} {r : List Char} (h : ¬ c = quoteCh) :
    rawMatchLen (c :: r) = none := by
  unfold rawMatchLen rawCandidates
  rw [List.filter_eq_nil_iff.mpr ?_]
  · rfl
  · intro m _
    simp [quotePrefix3_cons_ne h]

/-- The comment rule fails when the head is not a hash. -/
theorem commentLen_cons_ne {c : Char} {r : List Char} (h : ¬ c = '#') :
    commentLen (c :: r) = none := by
  simp [commentLen, h]

/-- The whitespace rule fails when the head is neither a space nor a tab. -/
theorem wsLen_cons_ne {c : Char} {r : List Char} (h1 : ¬ c = ' ') (h2 : ¬ c = tabCh) :
    wsLen (c :: r) = none := by
  simp [wsLen, h1, h2]

/-- The Float rules fail on a full-length Int lexeme: the integer part consumes the
whole input, leaving nothing for a fraction or exponent. -/
theorem floatLen_of_full {s : List Char} (h : intPartLen s = some s.length) :
    floatMatchLen s = none := by
  simp [floatMatchLen, h, List.drop_length, fracExpLen, expLen]

/-- On a full-length Int lexeme, logos token selection picks the Int rule: every other
rule either fails or (the Key rules) ties at the same length with lower priority. -/
theorem pickRule_int {s : List Char} (hAll : intPartLen s = some s.length) :
    pickRule s = some (Rule.IntR, s.length) := by
  obtain ⟨c, r, rfl, hc, hr⟩ := intLexeme_cases hAll
  have eNull : ruleLen Rule.KwNull (c :: r) = none := by
    simp only [ruleLen, nullKw]
    exact kwLen_cons_ne (intStart_ne hc 'n' (by decide) (by decide))
  have eTrue : ruleLen Rule.KwTrue (c :: r) = none := by
    simp only [ruleLen, trueKw]
    exact kwLen_cons_ne (intStart_ne hc 't' (by decide) (by decide))
  have eFalse : ruleLen Rule.KwFalse (c :: r) = none := by
    simp only [ruleLen, falseKw]
    exact kwLen_cons_ne (intStart_ne hc 'f' (by decide) (by decide))
  have eFloat : ruleLen Rule.FloatR (c :: r) = none := by
    simp only [ruleLen]
    exact floatLen_of_full hAll
  have eInt : ruleLen Rule.IntR (c :: r) = some (r.length + 1) := by
    simp only [ruleLen, intMatchLen]
    simpa using hAll
  have eString : ruleLen Rule.StringR (c :: r) = none := by
    simp only [ruleLen]
    exact stringLen_cons_ne (Ne.symm (intStart_ne hc quoteCh (by decide) (by decide)))
  have eRaw : ruleLen Rule.RawR (c :: r) = none := by
    simp only [ruleLen]
    exact rawLen_cons_ne (Ne.symm (intStart_ne hc quoteCh (by decide) (by decide)))
  have eLBr : ruleLen Rule.LBr (c :: r) = none := by
    simp only [ruleLen]
    exact charTokLen_cons_ne (Ne.symm (intStart_ne hc '[' (by decide) (by decide)))
  have eRBr : ruleLen Rule.RBr (c :: r) = none := by
    simp only [ruleLen]
    exact charTokLen_cons_ne (Ne.symm (intStart_ne hc ']' (by decide) (by decide)))
  have eLBc : ruleLen Rule.LBc (c :: r) = none := by
    simp only [ruleLen]
    exact charTokLen_cons_ne (Ne.symm (intStart_ne hc lbraceCh (by decide) (by decide)))
  have eRBc : ruleLen Rule.RBc (c :: r) = none := by
    simp only [ruleLen]
    exact charTokLen_cons_ne (Ne.symm (intStart_ne hc rbraceCh (by decide) (by decide)))
  have eColon : ruleLen Rule.ColonR (c :: r) = none := by
    simp only [ruleLen]
    exact charTokLen_cons_ne (Ne.symm (intStart_ne hc ':' (by decide) (by decide)))
  have eComma : ruleLen Rule.CommaR (c :: r) = none := by
    simp only [ruleLen]
    exact charTokLen_cons_ne (Ne.symm (intStart_ne hc ',' (by decide) (by decide)))
  have eNl : ruleLen Rule.NewlineR (c :: r) = none := by
    simp only [ruleLen]
    exact charTokLen_cons_ne (Ne.symm (intStart_ne hc nlCh (by decide) (by decide)))
  have eCom : ruleLen Rule.CommentR (c :: r) = none := by
    simp only [ruleLen]
    exact commentLen_cons_ne (Ne.symm (intStart_ne hc '#' (by decide) (by decide)))
  have eWs : ruleLen Rule.WsR (c :: r) = none := by
    simp only [ruleLen]
    exact wsLen_cons_ne (Ne.symm (intStart_ne hc ' ' (by decide) (by decide)))
      (Ne.symm (intStart_ne hc tabCh (by decide) (by decide)))
  rcases hc with hm | hd
  · subst hm
    have hrun : runLen isIdentCh r = r.length :=
      all_runLen (fun x hx => digit_identCh (hr x hx))
    have eKI : ruleLen Rule.KeyIdent ('-' :: r) = some (r.length + 1) := by
      simp [ruleLen, keyIdentLen, hrun, Nat.add_comm,
        (by decide : isIdentStart ('-') = Bool.true)]
    have eKD : ruleLen Rule.KeyDigits ('-' :: r) = none := by
      simp [ruleLen, keyDigitsLen, (by decide : isDigitCh ('-') = Bool.false)]
    simp only [pickRule, ruleOrder, List.foldl_cons, List.foldl_nil, eNull, eTrue,
      eFalse, eFloat, eInt, eString, eRaw, eKI, eKD, eLBr, eRBr, eLBc, eRBc, eColon,
      eComma, eNl, eCom, eWs]
    simp [rulePrio]
  · have hall2 : ∀ x ∈ c :: r, isDigitCh x = true := by
      intro x hx
      rcases List.mem_cons.mp hx with rfl | hxx
      · exact hd
      · exact hr x hxx
    have hrun2 : runLen isDigitCh (c :: r) = r.length + 1 := by
      simpa using all_runLen hall2
    have eKI : ruleLen Rule.KeyIdent (c :: r) = none := by
      simp [ruleLen, keyIdentLen, identStart_of_digit hd]
    have eKD : ruleLen Rule.KeyDigits (c :: r) = some (r.length + 1) := by
      simp [ruleLen, keyDigitsLen, hd, hrun2]
    simp only [pickRule, ruleOrder, List.foldl_cons, List.foldl_nil, eNull, eTrue,
      eFalse, eFloat, eInt, eString, eRaw, eKI, eKD, eLBr, eRBr, eLBc, eRBc, eColon,
      eComma, eNl, eCom, eWs]
    simp [rulePrio]

/-- Tokenizing a full-length Int lexeme whose value lies outside the i64 range is a
lexer error covering the whole lexeme: the Int rule wins the selection and its
`parse::<i64>` callback fails. -/
theorem tokenize_int_overflow {s : List Char} (hAll : intPartLen s = some s.length)
    (hrange : intLexValue s < i64Min ∨ i64Max < intLexValue s) :
    tokenize s = Except.error (0, s.length) := by
  have hdec : decodeI64 s = none := by
    unfold decodeI64
    rw [if_neg]
    intro hand
    rcases hrange with h1 | h1
    · exact absurd hand.1 (by omega)
    · exact absurd hand.2 (by omega)
  have hpick := pickRule_int hAll
  obtain ⟨c, r, rfl, hc, hr⟩ := intLexeme_cases hAll
  show tokenizeAux ((c :: r).length + 1) (c :: r) 0 = Except.error (0, (c :: r).length)
  rw [tokenizeAux]
  rw [hpick]
  simp [applyRule, List.take_length, hdec]

/-- C3: every bare integer literal (a full Int-rule lexeme) whose value lies outside
the 64-bit signed range is rejected: tokenization fails with a lexer error spanning the
whole literal, so `from_str` returns `Err` and no wrapped or truncated integer value is
ever produced. -/
theorem int_overflow_rejected (s : String) (hlex : isIntLexeme s.data = Bool.true)
    (hrange : intLexValue s.data < i64Min ∨ i64Max < intLexValue s.data) :
    tokenize s.data = Except.error (0, s.data.length) ∧
    isOkResult (from_str s) = Bool.false := by
  have hAll : intPartLen s.data = some s.data.length := by
    simpa [isIntLexeme] using hlex
  have htok := tokenize_int_overflow hAll hrange
  refine ⟨htok, ?_⟩
  simp [from_str, htok, isOkResult]

/-- C3 witness: the 20-digit literal of the claim. -/
theorem int_overflow_rejected_inst :
    tokenize ("99999999999999999999").data =
      Except.error (0, ("99999999999999999999").data.length) ∧
    isOkResult (from_str ("99999999999999999999")) = Bool.false :=
  int_overflow_rejected ("99999999999999999999") (by decide) (by decide)

end Maml
